import Mathlib

/-!
Verification of the topic-consolidation pipeline of `lecture_summarization`
(`src/lecture_summarization/summarize.py`, entry point
`generate_summary_pipeline`) against its natural-language specification.

The pipeline is shallowly embedded: the three language-model call shapes
(topic extraction, per-topic summarization, HTML formatting) are abstracted
as oracle functions, and the Python `dict` state (`topic_summaries`,
insertion-ordered) is modelled as an association list with
insertion-order-preserving update, matching CPython dict semantics.
-/

namespace LectureSummarization

/-- Result of one structured summary call (`summary_llm.invoke`): either a
parsed object carrying a `summary` string, the `None` sentinel, or a raised
exception. -/
inductive SummaryResult where
  | ok (summary : String)
  | nullResult
  | exn
deriving DecidableEq, Repr

/-- The three language-model call shapes consumed by the pipeline, abstracted
as oracles.  `extract i` is the structured topic-extraction call for chunk
`i` (`none` = any exception, including a bad response shape); `summarize` takes
the chunk index, the topic, the previous accumulated summary (if any) and the
sibling topics of the chunk; `format topic raw` is the free-text HTML
formatting call (`none` = exception). -/
structure Oracles where
  extract : Nat → Option (List String)
  summarize : Nat → String → Option String → List String → SummaryResult
  format : String → String → Option String

/-- Python `dict.get`: first binding of the key in insertion order (keys are
unique, so it is the only binding). -/
def lookup : List (String × String) → String → Option String
  | [], _ => none
  | (k, v) :: rest, key => if k = key then some v else lookup rest key

/-- Python `dict` assignment on a present key: the value is replaced in
place, keeping the key's position in the insertion order. -/
def setKey : List (String × String) → String → String → List (String × String)
  | [], key, v => [(key, v)]
  | (k, w) :: rest, key, v =>
    if k = key then (key, v) :: rest else (k, w) :: setKey rest key v

/-- `summarize.py` lines 183-185: append each topic not yet in
`known_topics`; an already-present topic is a no-op. -/
def registerTopics (known : List String) (topics : List String) : List String :=
  topics.foldl (fun ks t => if t ∈ ks then ks else ks ++ [t]) known

/-- State of the topic-extraction loop: `topic_map` (successful chunks with
their topic lists, in ascending chunk order) and `known_topics` (the Topic
Registry, first-seen order). -/
structure ExtractState where
  topic_map : List (Nat × List String)
  known_topics : List String
deriving Repr

/-- One iteration of the extraction loop (`summarize.py` lines 164-187): on
success append to `topic_map` and register the topics; on any exception the
chunk is skipped and contributes nothing. -/
def extractStep (O : Oracles) (st : ExtractState) (i : Nat) : ExtractState :=
  match O.extract i with
  | some topics =>
    { topic_map := st.topic_map ++ [(i, topics)],
      known_topics := registerTopics st.known_topics topics }
  | none => st

/-- The whole extraction loop over chunks `0, 1, ..., numChunks - 1`. -/
def extractPhase (O : Oracles) (numChunks : Nat) : ExtractState :=
  (List.range numChunks).foldl (extractStep O) ⟨[], []⟩

/-- One issued summary call: the chunk index, the topic, and the previous
accumulated summary supplied as context (`topic_summaries.get(topic)`). -/
structure SumCall where
  chunk_index : Nat
  topic : String
  previous : Option String
deriving DecidableEq, Repr

/-- State of the summarization loop: the `topic_summaries` dict and the log
of issued model calls (one entry per `summary_llm.invoke`). -/
structure SumState where
  topic_summaries : List (String × String)
  callLog : List SumCall
deriving Repr

/-- The merge policy of `summarize.py` lines 229-232: when a previous
accumulated summary exists the stored value becomes previous, newline, new
summary; otherwise it becomes the new summary. -/
def mergeSummary (previous : Option String) (s : String) : String :=
  match previous with
  | some prev => prev ++ "\n" ++ s
  | none => s

/-- One iteration of the inner summarization loop (`summarize.py` lines
201-234) for a single `(chunk, topic)` unit: fetch the previous summary,
issue the call; a `None` result or an exception leaves `topic_summaries`
unchanged; a parsed result is merged per lines 229-232. -/
def summarizeTopicStep (O : Oracles) (chunkIndex : Nat) (topics : List String)
    (st : SumState) (topic : String) : SumState :=
  let previous := lookup st.topic_summaries topic
  let log := st.callLog ++ [⟨chunkIndex, topic, previous⟩]
  match O.summarize chunkIndex topic previous (topics.filter (· ≠ topic)) with
  | .exn => { st with callLog := log }
  | .nullResult => { st with callLog := log }
  | .ok s =>
    match previous with
    | some prev =>
      { topic_summaries := setKey st.topic_summaries topic (prev ++ "\n" ++ s),
        callLog := log }
    | none =>
      { topic_summaries := st.topic_summaries ++ [(topic, s)], callLog := log }

/-- Inner loop over one `topic_map` item: all topics of the chunk, in
extractor-return order; each topic sees the full topic list of the chunk as
sibling context. -/
def summarizeChunk (O : Oracles) (st : SumState) (item : Nat × List String) :
    SumState :=
  item.2.foldl (summarizeTopicStep O item.1 item.2) st

/-- Outer summarization loop (`summarize.py` lines 196-234) over `topic_map`
items in ascending chunk order, starting from an empty dict. -/
def summarizePhase (O : Oracles) (topicMap : List (Nat × List String)) :
    SumState :=
  topicMap.foldl (summarizeChunk O) ⟨[], []⟩

/-- One HTML formatting unit (`summarize.py` lines 248-257): on success the
stripped response content, on exception the deterministic fallback wrapping
the raw summary in a single paragraph tag. -/
def formatTopic (O : Oracles) (topic raw : String) : String :=
  match O.format topic raw with
  | some content => content.trim
  | none => "<p>" ++ raw ++ "</p>"

/-- The formatting loop: one call per entry of `topic_summaries`, in dict
iteration (insertion) order, producing `html_summaries`. -/
def formatPhase (O : Oracles) (summaries : List (String × String)) :
    List (String × String) :=
  summaries.map (fun p => (p.1, formatTopic O p.1 p.2))

/-- Everything the pipeline run produces that the claims talk about. The
snapshot is what `json.dump(topic_summaries, ...)` writes at `json_path`;
`renderedHeadings` is the sequence of `<h2>` topic headings the PDF loop
(lines 268-280) emits, one per `html_summaries` item in iteration order. -/
structure PipelineResult where
  topic_map : List (Nat × List String)
  known_topics : List String
  topic_summaries : List (String × String)
  callLog : List SumCall
  snapshot : List (String × String)
  json_path : String
  html_summaries : List (String × String)
  renderedHeadings : List String
deriving Repr

/-- The pipeline body after the credential check (`summarize.py` lines
145-284), with the transcript/chunking collapsed to the number of chunks
(chunk texts only flow into prompts, which the oracles absorb). -/
def pipelineCore (O : Oracles) (numChunks : Nat) (outputDir : String) :
    PipelineResult :=
  let ex := extractPhase O numChunks
  let sm := summarizePhase O ex.topic_map
  let html := formatPhase O sm.topic_summaries
  { topic_map := ex.topic_map,
    known_topics := ex.known_topics,
    topic_summaries := sm.topic_summaries,
    callLog := sm.callLog,
    snapshot := sm.topic_summaries,
    json_path := outputDir ++ "/topic_summaries.json",
    html_summaries := html,
    renderedHeadings := html.map Prod.fst }

/-- `generate_summary_pipeline` (`summarize.py` lines 137-284): an empty
credential raises `ValueError` (line 142-143) before anything else runs. -/
def generate_summary_pipeline (apiKey : String) (O : Oracles)
    (numChunks : Nat) (outputDir : String) : Except String PipelineResult :=
  if apiKey = "" then .error "NVIDIA_API_KEY not found in environment."
  else .ok (pipelineCore O numChunks outputDir)

/-- The claim-side characterization of the Topic Registry: the distinct
labels of a stream in order of first appearance. -/
def firstAppearanceOrder : List String → List String
  | [] => []
  | t :: rest => t :: firstAppearanceOrder (rest.filter (· ≠ t))
termination_by l => l.length
decreasing_by
  simp only [List.length_cons]
  exact Nat.lt_succ_of_le (List.length_filter_le _ _)

/-- Modelled from the spec: the Chunker's splitting algorithm lives in the
external `langchain` splitter (`RecursiveCharacterTextSplitter.from_tiktoken_encoder`,
called by `chunk_text`, `summarize.py` lines 130-135), not in this
repository's sources.  Section 4.1 of the spec describes it as a greedy
deterministic walk over the token stream: emit a chunk every `targetSize`
tokens, backing up `overlap` tokens before starting the next chunk; the last
chunk may be shorter.  `fuel` bounds the recursion; `split` supplies
`tokens.length`, which suffices whenever `overlap < targetSize`. -/
def splitAux (targetSize overlap : Nat) : Nat → List α → List (List α)
  | 0, _ => []
  | _, [] => []
  | fuel + 1, ts =>
    if ts.length ≤ targetSize then [ts]
    else ts.take targetSize ::
      splitAux targetSize overlap fuel (ts.drop (targetSize - overlap))

/-- Modelled from the spec: `split(text, target_size, overlap)` of spec
section 4.1, over an already-tokenized stream. -/
def split (targetSize overlap : Nat) (tokens : List α) : List (List α) :=
  splitAux targetSize overlap tokens.length tokens

/-- Removing the configured overlap between consecutive chunks and
concatenating: the first chunk whole, every later chunk with its leading
`overlap` tokens dropped. -/
def deoverlap (overlap : Nat) : List (List α) → List α
  | [] => []
  | c :: cs => c ++ (cs.map (List.drop overlap)).flatten

/-- A concrete extraction behavior: chunk 0 yields topics A then B, chunk 1
yields A again, later chunks fail. -/
def ex1Extract : Nat → Option (List String)
  | 0 => some ["A", "B"]
  | 1 => some ["A"]
  | _ => none

/-- A concrete summarization behavior: the call for topic A in chunk 0
raises, every other listed call succeeds. -/
def ex1Summarize : Nat → String → Option String → List String → SummaryResult
  | 0, "A", _, _ => .exn
  | 0, "B", _, _ => .ok "b0"
  | 1, "A", _, _ => .ok "a1"
  | _, _, _, _ => .nullResult

/-- A concrete run in which topic A is registered before topic B but first
obtains a summary only in chunk 1 (its chunk-0 call raised). -/
def ex1Oracles : Oracles := ⟨ex1Extract, ex1Summarize, fun _ _ => none⟩

/-- An oracle whose summarization calls all succeed with a fixed summary and
whose formatting calls all fail. -/
def okOracle : Oracles :=
  ⟨fun _ => some ["T"], fun _ _ _ _ => .ok "s", fun _ _ => none⟩

/-- An oracle whose summarization calls all raise and whose extraction calls
all fail. -/
def exnOracle : Oracles :=
  ⟨fun _ => none, fun _ _ _ _ => .exn, fun _ _ => none⟩

/-- An oracle used for the duplicate-topic scenario: the first summary call
for a fresh topic returns `s1`, any call that already sees accumulated text
returns `s2`. -/
def dupOracle : Oracles :=
  ⟨fun _ => some ["T", "T"],
   fun _ _ previous _ =>
     match previous with
     | none => .ok "s1"
     | some _ => .ok "s2",
   fun _ _ => none⟩

theorem lookup_eq_none_iff (m : List (String × String)) (k : String) :
    lookup m k = none ↔ k ∉ m.map Prod.fst := by
  induction m with
  | nil => simp [lookup]
  | cons p rest ih =>
    obtain ⟨a, v⟩ := p
    by_cases h : a = k
    · subst h; simp [lookup]
    · simp [lookup, h, ih, Ne.symm h]

theorem lookup_setKey_self (m : List (String × String)) (k v : String) :
    lookup (setKey m k v) k = some v := by
  induction m with
  | nil => simp [setKey, lookup]
  | cons p rest ih =>
    obtain ⟨a, w⟩ := p
    by_cases h : a = k
    · simp [setKey, h, lookup]
    · simp [setKey, h, lookup, ih]

theorem lookup_append_single_self (m : List (String × String)) (k v : String)
    (hnone : lookup m k = none) : lookup (m ++ [(k, v)]) k = some v := by
  induction m with
  | nil => simp [lookup]
  | cons p rest ih =>
    obtain ⟨a, w⟩ := p
    by_cases h : a = k
    · simp [lookup, h] at hnone
    · simp only [lookup, if_neg h] at hnone
      simp [List.cons_append, lookup, h, ih hnone]

theorem map_fst_setKey_of_lookup (m : List (String × String)) (k v w : String)
    (h : lookup m k = some w) :
    (setKey m k v).map Prod.fst = m.map Prod.fst := by
  induction m with
  | nil => simp [lookup] at h
  | cons p rest ih =>
    obtain ⟨a, u⟩ := p
    by_cases ha : a = k
    · subst ha; simp [setKey]
    · simp only [lookup, if_neg ha] at h
      simp [setKey, ha, ih h]

theorem summarizeTopicStep_ok (O : Oracles) (i : Nat) (topics : List String)
    (st : SumState) (t s : String)
    (hok : O.summarize i t (lookup st.topic_summaries t)
      (topics.filter (· ≠ t)) = .ok s) :
    summarizeTopicStep O i topics st t =
      { topic_summaries :=
          match lookup st.topic_summaries t with
          | some prev => setKey st.topic_summaries t (prev ++ "\n" ++ s)
          | none => st.topic_summaries ++ [(t, s)],
        callLog := st.callLog ++ [⟨i, t, lookup st.topic_summaries t⟩] } := by
  cases hl : lookup st.topic_summaries t with
  | none =>
    rw [hl] at hok
    simp only [summarizeTopicStep, hl, hok]
  | some prev =>
    rw [hl] at hok
    simp only [summarizeTopicStep, hl, hok]

theorem summarizeTopicStep_fail (O : Oracles) (i : Nat) (topics : List String)
    (st : SumState) (t : String)
    (h : O.summarize i t (lookup st.topic_summaries t)
           (topics.filter (· ≠ t)) = .nullResult ∨
         O.summarize i t (lookup st.topic_summaries t)
           (topics.filter (· ≠ t)) = .exn) :
    summarizeTopicStep O i topics st t =
      { st with callLog := st.callLog ++ [⟨i, t, lookup st.topic_summaries t⟩] } := by
  rcases h with h | h <;> simp only [summarizeTopicStep, h]

theorem lookup_summarizeTopicStep_ok (O : Oracles) (i : Nat)
    (topics : List String) (st : SumState) (t s : String)
    (hok : O.summarize i t (lookup st.topic_summaries t)
      (topics.filter (· ≠ t)) = .ok s) :
    lookup (summarizeTopicStep O i topics st t).topic_summaries t =
      some (mergeSummary (lookup st.topic_summaries t) s) := by
  rw [summarizeTopicStep_ok O i topics st t s hok]
  cases hl : lookup st.topic_summaries t with
  | none => simp [mergeSummary, hl, lookup_append_single_self _ _ _ hl]
  | some prev => simp [mergeSummary, hl, lookup_setKey_self]

/-- C2: for every `(chunk, topic)` unit whose model call succeeds, the stored
accumulated summary becomes previous-summary, newline, returned summary when
a previous summary exists, and the returned summary alone otherwise — the
single merge policy of `summarize.py` lines 229-232, applied at every unit. -/
theorem C2_merge_policy (O : Oracles) (i : Nat) (topics : List String)
    (st : SumState) (t s : String)
    (hok : O.summarize i t (lookup st.topic_summaries t)
      (topics.filter (· ≠ t)) = .ok s) :
    lookup (summarizeTopicStep O i topics st t).topic_summaries t =
      some (mergeSummary (lookup st.topic_summaries t) s) :=
  lookup_summarizeTopicStep_ok O i topics st t s hok

theorem C2_merge_policy_witness :
    lookup (summarizeTopicStep okOracle 0 ["T"] ⟨[], []⟩ "T").topic_summaries
      "T" = some "s" :=
  C2_merge_policy okOracle 0 ["T"] ⟨[], []⟩ "T" "s" rfl

/-- C3: a `(chunk, topic)` unit whose model call returns the null sentinel or
raises leaves the whole accumulated-summary map exactly as it was, issues
exactly one call (no retry), and the loop proceeds to the next unit. -/
theorem C3_failed_unit_skipped (O : Oracles) (i : Nat) (topics : List String)
    (st : SumState) (t : String)
    (h : O.summarize i t (lookup st.topic_summaries t)
           (topics.filter (· ≠ t)) = .nullResult ∨
         O.summarize i t (lookup st.topic_summaries t)
           (topics.filter (· ≠ t)) = .exn) :
    (summarizeTopicStep O i topics st t).topic_summaries = st.topic_summaries ∧
    (summarizeTopicStep O i topics st t).callLog =
      st.callLog ++ [⟨i, t, lookup st.topic_summaries t⟩] ∧
    ∀ rest : List String,
      (t :: rest).foldl (summarizeTopicStep O i topics) st =
        rest.foldl (summarizeTopicStep O i topics)
          (summarizeTopicStep O i topics st t) := by
  rw [summarizeTopicStep_fail O i topics st t h]
  exact ⟨rfl, rfl, fun rest => by
    rw [List.foldl_cons, summarizeTopicStep_fail O i topics st t h]⟩

theorem C3_failed_unit_skipped_witness :
    (summarizeTopicStep exnOracle 0 ["T"] ⟨[], []⟩ "T").topic_summaries = [] ∧
    (summarizeTopicStep exnOracle 0 ["T"] ⟨[], []⟩ "T").callLog =
      [] ++ [⟨0, "T", lookup [] "T"⟩] ∧
    ∀ rest : List String,
      ("T" :: rest).foldl (summarizeTopicStep exnOracle 0 ["T"]) ⟨[], []⟩ =
        rest.foldl (summarizeTopicStep exnOracle 0 ["T"])
          (summarizeTopicStep exnOracle 0 ["T"] ⟨[], []⟩ "T") :=
  C3_failed_unit_skipped exnOracle 0 ["T"] ⟨[], []⟩ "T" (Or.inr rfl)

/-- C5: a chunk whose topic-extraction call fails contributes no entry to the
Topic Map and leaves the registry untouched, and the extraction loop
continues with the remaining chunks. -/
theorem C5_failed_chunk_zero_topics (O : Oracles) (st : ExtractState) (i : Nat)
    (h : O.extract i = none) :
    extractStep O st i = st ∧
    ∀ rest : List Nat,
      (i :: rest).foldl (extractStep O) st = rest.foldl (extractStep O) st := by
  have h1 : extractStep O st i = st := by simp [extractStep, h]
  exact ⟨h1, fun rest => by rw [List.foldl_cons, h1]⟩

theorem C5_failed_chunk_zero_topics_witness :
    extractStep exnOracle ⟨[], []⟩ 0 = ⟨[], []⟩ ∧
    ∀ rest : List Nat,
      (0 :: rest).foldl (extractStep exnOracle) ⟨[], []⟩ =
        rest.foldl (extractStep exnOracle) ⟨[], []⟩ :=
  C5_failed_chunk_zero_topics exnOracle ⟨[], []⟩ 0 rfl

/-- C6: when the formatting call for a topic raises, the formatted body is
the raw accumulated summary wrapped verbatim in one paragraph tag, which is
never the empty string; and formatting produces a body for every topic in
the accumulated-summary map, so a failure never prevents rendering. -/
theorem C6_format_fallback (O : Oracles) (t raw : String)
    (h : O.format t raw = none) :
    formatTopic O t raw = "<p>" ++ raw ++ "</p>" ∧
    formatTopic O t raw ≠ "" ∧
    ∀ summaries : List (String × String),
      (formatPhase O summaries).map Prod.fst = summaries.map Prod.fst := by
  have h1 : formatTopic O t raw = "<p>" ++ raw ++ "</p>" := by
    simp [formatTopic, h]
  refine ⟨h1, ?_, fun summaries => by simp [formatPhase]⟩
  rw [h1]
  intro hcon
  have hlen := congrArg String.length hcon
  simp [String.length_append] at hlen
  exact absurd hlen.2 (by decide)

theorem C6_format_fallback_witness :
    formatTopic exnOracle "X" "abc" = "<p>abc</p>" ∧
    formatTopic exnOracle "X" "abc" ≠ "" ∧
    ∀ summaries : List (String × String),
      (formatPhase exnOracle summaries).map Prod.fst = summaries.map Prod.fst :=
  C6_format_fallback exnOracle "X" "abc" rfl

theorem mem_firstAppearanceOrder (x : String) :
    ∀ l : List String, x ∈ firstAppearanceOrder l ↔ x ∈ l := by
  intro l
  induction l using firstAppearanceOrder.induct with
  | case1 => simp [firstAppearanceOrder]
  | case2 t rest ih =>
    rw [firstAppearanceOrder]
    simp only [List.mem_cons, ih, List.mem_filter, decide_eq_true_eq]
    constructor
    · rintro (h | ⟨h, _⟩) <;> [exact Or.inl h; exact Or.inr h]
    · rintro (h | h)
      · exact Or.inl h
      · by_cases hx : x = t
        · exact Or.inl hx
        · exact Or.inr ⟨h, hx⟩

theorem fAO_append (J : List String) :
    ∀ ts : List String,
      firstAppearanceOrder (J ++ ts) =
        firstAppearanceOrder J ++ firstAppearanceOrder (ts.filter (· ∉ J)) := by
  induction J using firstAppearanceOrder.induct with
  | case1 =>
    intro ts
    simp [firstAppearanceOrder]
  | case2 a J2 ih =>
    intro ts
    rw [List.cons_append, firstAppearanceOrder, List.filter_append,
      ih (ts.filter (· ≠ a)), firstAppearanceOrder]
    have hfil : (ts.filter (· ≠ a)).filter (· ∉ J2.filter (· ≠ a)) =
        ts.filter (· ∉ (a :: J2)) := by
      rw [List.filter_filter]
      apply List.filter_congr
      intro x _
      rw [← Bool.decide_and, decide_eq_decide]
      simp only [List.mem_filter, decide_eq_true_eq, List.mem_cons]
      tauto
    rw [hfil, List.cons_append]

theorem registerTopics_append_fAO (ts : List String) :
    ∀ known : List String,
      registerTopics known ts =
        known ++ firstAppearanceOrder (ts.filter (· ∉ known)) := by
  induction ts with
  | nil => intro known; simp [registerTopics, firstAppearanceOrder]
  | cons t rest ih =>
    intro known
    by_cases h : t ∈ known
    · have hstep : registerTopics known (t :: rest) =
          registerTopics known rest := by
        simp [registerTopics, h]
      have hfil : (t :: rest).filter (· ∉ known) = rest.filter (· ∉ known) := by
        simp [List.filter_cons, h]
      rw [hstep, ih known, hfil]
    · have hstep : registerTopics known (t :: rest) =
          registerTopics (known ++ [t]) rest := by
        simp [registerTopics, h]
      have hfil : (t :: rest).filter (· ∉ known) =
          t :: rest.filter (· ∉ known) := by
        simp [List.filter_cons, h]
      rw [hstep, ih (known ++ [t]), hfil, firstAppearanceOrder]
      have hfil2 : (rest.filter (· ∉ known)).filter (· ≠ t) =
          rest.filter (· ∉ known ++ [t]) := by
        rw [List.filter_filter]
        apply List.filter_congr
        intro x _
        rw [← Bool.decide_and, decide_eq_decide]
        simp only [List.mem_append, List.mem_singleton]
        tauto
      rw [hfil2, List.append_assoc, List.singleton_append]

theorem filter_not_mem_fAO (J ts : List String) :
    ts.filter (· ∉ firstAppearanceOrder J) = ts.filter (· ∉ J) := by
  apply List.filter_congr
  intro x _
  rw [decide_eq_decide]
  exact not_congr (mem_firstAppearanceOrder x J)

theorem known_topics_invariant (O : Oracles) :
    ∀ (indices : List Nat) (st : ExtractState),
      st.known_topics =
        firstAppearanceOrder ((st.topic_map.map Prod.snd).flatten) →
      (indices.foldl (extractStep O) st).known_topics =
        firstAppearanceOrder
          (((indices.foldl (extractStep O) st).topic_map.map Prod.snd).flatten) := by
  intro indices
  induction indices with
  | nil => intro st h; exact h
  | cons i rest ih =>
    intro st h
    rw [List.foldl_cons]
    apply ih
    cases he : O.extract i with
    | none => simpa [extractStep, he] using h
    | some topics =>
      simp only [extractStep, he]
      have hflat : (((st.topic_map ++ [(i, topics)]).map Prod.snd).flatten) =
          (st.topic_map.map Prod.snd).flatten ++ topics := by
        simp
      rw [hflat, h, registerTopics_append_fAO, fAO_append,
        filter_not_mem_fAO]

/-- C4: for every run, the Topic Registry (`known_topics`) equals the
distinct topic labels of the successfully extracted chunks in order of
first appearance — chunks scanned in ascending index order, topics within a
chunk in extractor-return order — and registering an already-present label
is a no-op. -/
theorem C4_registry_first_seen_order (O : Oracles) (numChunks : Nat) :
    (extractPhase O numChunks).known_topics =
      firstAppearanceOrder
        (((extractPhase O numChunks).topic_map.map Prod.snd).flatten) ∧
    ∀ (known : List String) (t : String), t ∈ known →
      registerTopics known [t] = known := by
  constructor
  · exact known_topics_invariant O (List.range numChunks) ⟨[], []⟩
      (by simp [firstAppearanceOrder])
  · intro known t h
    simp [registerTopics, h]

theorem C4_registry_first_seen_order_witness :
    (extractPhase ex1Oracles 2).known_topics =
      firstAppearanceOrder
        (((extractPhase ex1Oracles 2).topic_map.map Prod.snd).flatten) ∧
    registerTopics ["A"] ["A"] = ["A"] :=
  ⟨(C4_registry_first_seen_order ex1Oracles 2).1,
   (C4_registry_first_seen_order ex1Oracles 2).2 ["A"] "A" (by decide)⟩

theorem nodup_keys_summarizeTopicStep (O : Oracles) (i : Nat)
    (topics : List String) (st : SumState) (t : String)
    (h : (st.topic_summaries.map Prod.fst).Nodup) :
    ((summarizeTopicStep O i topics st t).topic_summaries.map Prod.fst).Nodup := by
  cases hres : O.summarize i t (lookup st.topic_summaries t)
      (topics.filter (· ≠ t)) with
  | exn => rw [summarizeTopicStep_fail O i topics st t (Or.inr hres)]; exact h
  | nullResult =>
    rw [summarizeTopicStep_fail O i topics st t (Or.inl hres)]; exact h
  | ok s =>
    rw [summarizeTopicStep_ok O i topics st t s hres]
    cases hl : lookup st.topic_summaries t with
    | some prev =>
      simp only []
      rw [map_fst_setKey_of_lookup _ _ _ _ hl]
      exact h
    | none =>
      have hnot : t ∉ st.topic_summaries.map Prod.fst :=
        (lookup_eq_none_iff _ _).1 hl
      simp [List.nodup_append, h, hnot]

theorem nodup_keys_foldl_topics (O : Oracles) (i : Nat) (topics : List String) :
    ∀ (ts : List String) (st : SumState),
      (st.topic_summaries.map Prod.fst).Nodup →
      (((ts.foldl (summarizeTopicStep O i topics) st).topic_summaries.map
        Prod.fst).Nodup) := by
  intro ts
  induction ts with
  | nil => intro st h; exact h
  | cons t rest ih =>
    intro st h
    rw [List.foldl_cons]
    exact ih _ (nodup_keys_summarizeTopicStep O i topics st t h)

theorem nodup_keys_summarizePhase (O : Oracles)
    (topicMap : List (Nat × List String)) :
    (((summarizePhase O topicMap).topic_summaries.map Prod.fst)).Nodup := by
  suffices h : ∀ (tm : List (Nat × List String)) (st : SumState),
      (st.topic_summaries.map Prod.fst).Nodup →
      (((tm.foldl (summarizeChunk O) st).topic_summaries.map Prod.fst)).Nodup by
    exact h topicMap ⟨[], []⟩ (by simp)
  intro tm
  induction tm with
  | nil => intro st h; exact h
  | cons item rest ih =>
    intro st h
    rw [List.foldl_cons]
    exact ih _ (nodup_keys_foldl_topics O item.1 item.2 item.2 st h)

theorem extractStep_congr (O O' : Oracles) (h : O'.extract = O.extract) :
    extractStep O' = extractStep O := by
  funext st i
  simp [extractStep, h]

theorem summarizeTopicStep_congr (O O' : Oracles)
    (h : O'.summarize = O.summarize) :
    summarizeTopicStep O' = summarizeTopicStep O := by
  funext i topics st t
  simp [summarizeTopicStep, h]

theorem summarizePhase_congr (O O' : Oracles) (h : O'.summarize = O.summarize)
    (topicMap : List (Nat × List String)) :
    summarizePhase O' topicMap = summarizePhase O topicMap := by
  have hc : summarizeChunk O' = summarizeChunk O := by
    funext st item
    rw [summarizeChunk, summarizeChunk, summarizeTopicStep_congr O O' h]
  rw [summarizePhase, summarizePhase, hc]

theorem summarizeTopicStep_no_ok (O : Oracles)
    (h : ∀ i t p o s, O.summarize i t p o ≠ SummaryResult.ok s)
    (i : Nat) (topics : List String) (st : SumState) (t : String) :
    (summarizeTopicStep O i topics st t).topic_summaries =
      st.topic_summaries := by
  cases hres : O.summarize i t (lookup st.topic_summaries t)
      (topics.filter (· ≠ t)) with
  | ok s => exact absurd hres (h _ _ _ _ s)
  | exn => rw [summarizeTopicStep_fail O i topics st t (Or.inr hres)]
  | nullResult => rw [summarizeTopicStep_fail O i topics st t (Or.inl hres)]

theorem summaries_unchanged_foldl_no_ok (O : Oracles)
    (h : ∀ i t p o s, O.summarize i t p o ≠ SummaryResult.ok s)
    (i : Nat) (topics : List String) :
    ∀ (ts : List String) (st : SumState),
      (ts.foldl (summarizeTopicStep O i topics) st).topic_summaries =
        st.topic_summaries := by
  intro ts
  induction ts with
  | nil => intro st; rfl
  | cons t more ih =>
    intro st
    rw [List.foldl_cons, ih]
    exact summarizeTopicStep_no_ok O h i topics st t

theorem summaries_empty_of_no_ok (O : Oracles)
    (h : ∀ i t p o s, O.summarize i t p o ≠ SummaryResult.ok s) :
    ∀ (topicMap : List (Nat × List String)) (st : SumState),
      (topicMap.foldl (summarizeChunk O) st).topic_summaries =
        st.topic_summaries := by
  intro topicMap
  induction topicMap with
  | nil => intro st; rfl
  | cons item rest ih =>
    intro st
    rw [List.foldl_cons, ih]
    exact summaries_unchanged_foldl_no_ok O h item.1 item.2 item.2 st

/-- C7: the snapshot written to `<output_dir>/topic_summaries.json` is
exactly the full accumulated-summary map produced by the summarization
phase; it does not depend on the formatting oracle (it is fixed before any
formatting or rendering call can differ), and when no summarization call
ever succeeds it is the empty map. -/
theorem C7_snapshot_full_map (O O' : Oracles) (numChunks : Nat)
    (outputDir : String) (hex : O'.extract = O.extract)
    (hsum : O'.summarize = O.summarize) :
    (pipelineCore O numChunks outputDir).snapshot =
      (pipelineCore O numChunks outputDir).topic_summaries ∧
    (pipelineCore O numChunks outputDir).json_path =
      outputDir ++ "/topic_summaries.json" ∧
    (pipelineCore O' numChunks outputDir).snapshot =
      (pipelineCore O numChunks outputDir).snapshot ∧
    ((∀ i t p o s, O.summarize i t p o ≠ SummaryResult.ok s) →
      (pipelineCore O numChunks outputDir).snapshot = []) := by
  refine ⟨rfl, rfl, ?_, ?_⟩
  · show (summarizePhase O' (extractPhase O' numChunks).topic_map).topic_summaries =
      (summarizePhase O (extractPhase O numChunks).topic_map).topic_summaries
    rw [extractPhase, extractPhase, extractStep_congr O O' hex,
      summarizePhase_congr O O' hsum]
  · intro h
    show (summarizePhase O (extractPhase O numChunks).topic_map).topic_summaries = []
    rw [summarizePhase, summaries_empty_of_no_ok O h]

theorem C7_snapshot_full_map_witness :
    (pipelineCore exnOracle 3 "out").snapshot =
      (pipelineCore exnOracle 3 "out").topic_summaries ∧
    (pipelineCore exnOracle 3 "out").json_path = "out" ++ "/topic_summaries.json" ∧
    (pipelineCore exnOracle 3 "out").snapshot =
      (pipelineCore exnOracle 3 "out").snapshot ∧
    ((∀ i t p o s, exnOracle.summarize i t p o ≠ SummaryResult.ok s) →
      (pipelineCore exnOracle 3 "out").snapshot = []) :=
  C7_snapshot_full_map exnOracle exnOracle 3 "out" rfl rfl

/-- C1, amended: the rendered document contains exactly one topic heading
per topic label present in the Accumulated Summary map, none omitted and
none duplicated, and the headings appear in the map's insertion order — the
order in which topics first obtained a successful summary — which need not
be Topic Registry order. -/
theorem C1_headings_amended (O : Oracles) (numChunks : Nat)
    (outputDir : String) :
    (pipelineCore O numChunks outputDir).renderedHeadings =
      (pipelineCore O numChunks outputDir).topic_summaries.map Prod.fst ∧
    (pipelineCore O numChunks outputDir).renderedHeadings.Nodup := by
  constructor
  · simp [pipelineCore, formatPhase]
  · have h := nodup_keys_summarizePhase O (extractPhase O numChunks).topic_map
    simpa [pipelineCore, formatPhase] using h

/-- C1, counterexample: with `ex1Oracles` the Topic Registry is
`["A", "B"]` (A is extracted first, in chunk 0), but A's chunk-0
summarization call raises while B's succeeds, so the Accumulated Summary
dict gains B first and the PDF loop renders the heading for B before the
heading for A — not in Topic Registry order. -/
theorem C1_headings_counterexample :
    (pipelineCore ex1Oracles 2 "out").known_topics = ["A", "B"] ∧
    (pipelineCore ex1Oracles 2 "out").renderedHeadings = ["B", "A"] ∧
    (pipelineCore ex1Oracles 2 "out").renderedHeadings ≠
      (pipelineCore ex1Oracles 2 "out").known_topics :=
  ⟨rfl, rfl, by decide⟩

/-- C10: when the extractor returns the same label twice in one chunk, the
accumulator issues one summarization call per occurrence (no
de-duplication), and the second occurrence sees as previous-summary context
the accumulated text produced by the first occurrence and appends to it
again. -/
theorem C10_duplicate_topic_double_call (O : Oracles) (st : SumState)
    (i : Nat) (t s1 s2 : String)
    (h1 : O.summarize i t (lookup st.topic_summaries t) [] =
      SummaryResult.ok s1)
    (h2 : O.summarize i t
      (some (mergeSummary (lookup st.topic_summaries t) s1)) [] =
      SummaryResult.ok s2) :
    (summarizeChunk O st (i, [t, t])).callLog =
      st.callLog ++ [⟨i, t, lookup st.topic_summaries t⟩,
        ⟨i, t, some (mergeSummary (lookup st.topic_summaries t) s1)⟩] ∧
    lookup (summarizeChunk O st (i, [t, t])).topic_summaries t =
      some (mergeSummary (lookup st.topic_summaries t) s1 ++ "\n" ++ s2) := by
  have hfil : List.filter (fun x => decide (x ≠ t)) [t, t] = [] := by simp
  have hok1 : O.summarize i t (lookup st.topic_summaries t)
      (List.filter (fun x => decide (x ≠ t)) [t, t]) = SummaryResult.ok s1 := by
    rw [hfil]; exact h1
  have hstep1 := summarizeTopicStep_ok O i [t, t] st t s1 hok1
  have hlook1 := lookup_summarizeTopicStep_ok O i [t, t] st t s1 hok1
  have hok2 : O.summarize i t
      (lookup (summarizeTopicStep O i [t, t] st t).topic_summaries t)
      (List.filter (fun x => decide (x ≠ t)) [t, t]) = SummaryResult.ok s2 := by
    rw [hfil, hlook1]; exact h2
  have hstep2 :=
    summarizeTopicStep_ok O i [t, t] (summarizeTopicStep O i [t, t] st t) t s2 hok2
  have hlook2 :=
    lookup_summarizeTopicStep_ok O i [t, t] (summarizeTopicStep O i [t, t] st t) t s2 hok2
  have hchunk : summarizeChunk O st (i, [t, t]) =
      summarizeTopicStep O i [t, t] (summarizeTopicStep O i [t, t] st t) t := by
    simp [summarizeChunk]
  constructor
  · rw [hchunk, hstep2, hlook1, hstep1]
    simp
  · rw [hchunk, hlook2, hlook1]
    simp [mergeSummary]

theorem C10_duplicate_topic_double_call_witness :
    (summarizeChunk dupOracle ⟨[], []⟩ (0, ["T", "T"])).callLog =
      [] ++ [⟨0, "T", lookup [] "T"⟩,
        ⟨0, "T", some (mergeSummary (lookup [] "T") "s1")⟩] ∧
    lookup (summarizeChunk dupOracle ⟨[], []⟩ (0, ["T", "T"])).topic_summaries
      "T" = some (mergeSummary (lookup [] "T") "s1" ++ "\n" ++ "s2") :=
  C10_duplicate_topic_double_call dupOracle ⟨[], []⟩ 0 "T" "s1" "s2" rfl rfl

theorem splitAux_succ_cons {α : Type} (targetSize overlap fuel : Nat)
    (a : α) (l : List α) :
    splitAux targetSize overlap (fuel + 1) (a :: l) =
      if (a :: l).length ≤ targetSize then [a :: l]
      else (a :: l).take targetSize ::
        splitAux targetSize overlap fuel
          ((a :: l).drop (targetSize - overlap)) := rfl

theorem splitAux_spec {α : Type} (targetSize overlap : Nat)
    (hov : overlap < targetSize) :
    ∀ (fuel : Nat) (ts : List α), ts.length ≤ fuel → ts ≠ [] →
      deoverlap overlap (splitAux targetSize overlap fuel ts) = ts ∧
      (∀ c ∈ splitAux targetSize overlap fuel ts,
        c ≠ [] ∧ c.length ≤ targetSize) ∧
      ∃ cs, splitAux targetSize overlap fuel ts = ts.take targetSize :: cs := by
  intro fuel
  induction fuel with
  | zero =>
    intro ts hlen hne
    exact absurd (List.eq_nil_of_length_eq_zero (Nat.le_zero.mp hlen)) hne
  | succ fuel ih =>
    intro ts hlen hne
    by_cases hle : ts.length ≤ targetSize
    · have hsplit : splitAux targetSize overlap (fuel + 1) ts = [ts] := by
        cases ts with
        | nil => exact absurd rfl hne
        | cons a l => rw [splitAux_succ_cons, if_pos hle]
      refine ⟨?_, ?_, ⟨[], ?_⟩⟩
      · rw [hsplit]; simp [deoverlap]
      · rw [hsplit]
        intro c hc
        simp only [List.mem_singleton] at hc
        subst hc
        exact ⟨hne, hle⟩
      · rw [hsplit, List.take_of_length_le hle]
    · push_neg at hle
      have hstep : 0 < targetSize - overlap := by omega
      set step := targetSize - overlap with hstepdef
      have htslen : 0 < ts.length := by omega
      have hrest_ne : ts.drop step ≠ [] := by
        intro hcon
        have hl := congrArg List.length hcon
        simp only [List.length_drop, List.length_nil] at hl
        omega
      have hrest_len : (ts.drop step).length ≤ fuel := by
        simp only [List.length_drop]
        omega
      obtain ⟨hrec, hchunks, cs', hcs'⟩ := ih (ts.drop step) hrest_len hrest_ne
      have hsplit : splitAux targetSize overlap (fuel + 1) ts =
          ts.take targetSize ::
            splitAux targetSize overlap fuel (ts.drop step) := by
        cases ts with
        | nil => exact absurd rfl hne
        | cons a l =>
          rw [splitAux_succ_cons, if_neg (Nat.not_le.mpr hle), ← hstepdef]
      refine ⟨?_, ?_, ⟨_, hsplit⟩⟩
      · rw [hsplit, hcs']
        rw [hcs'] at hrec
        simp only [deoverlap, List.map_cons, List.flatten_cons] at hrec ⊢
        have hY : (List.map (List.drop overlap) cs').flatten =
            (ts.drop step).drop targetSize := by
          have h2 := congrArg
            (List.drop ((ts.drop step).take targetSize).length) hrec
          rw [List.drop_left] at h2
          rw [List.length_take] at h2
          rcases Nat.le_total targetSize (ts.drop step).length with hc | hc
          · rwa [Nat.min_eq_left hc] at h2
          · rw [Nat.min_eq_right hc] at h2
            rw [List.drop_length] at h2
            rw [List.drop_eq_nil_of_le hc]
            exact h2
        rw [hY]
        have hdt : ((ts.drop step).take targetSize).drop overlap =
            (ts.drop targetSize).take step := by
          rw [List.drop_take, List.drop_drop]
          have e1 : step + overlap = targetSize := by omega
          rw [e1, ← hstepdef]
        rw [hdt]
        have hY2 : (ts.drop step).drop targetSize =
            (ts.drop targetSize).drop step := by
          rw [List.drop_drop, List.drop_drop, Nat.add_comm]
        rw [hY2, ← List.append_assoc]
        rw [List.append_assoc (ts.take targetSize)]
        rw [List.take_append_drop step (ts.drop targetSize)]
        rw [List.take_append_drop targetSize ts]
      · rw [hsplit]
        intro c hc
        rcases List.mem_cons.mp hc with hc0 | hcr
        · subst hc0
          constructor
          · intro hcon
            have hl := congrArg List.length hcon
            simp only [List.length_take, List.length_nil] at hl
            omega
          · simp only [List.length_take]
            omega
        · exact hchunks c hcr

/-- C8: for every non-empty token stream (spec-modelled Chunker, section
4.1), the chunks concatenated after dropping the configured overlap from
every chunk but the first reconstruct the original stream; no chunk is
empty, and every chunk (in particular the last, which may be shorter) has at
most `targetSize` tokens.  Hypotheses match the source configuration
(`chunk_size=1000 > chunk_overlap=100`). -/
theorem C8_chunking {α : Type} (targetSize overlap : Nat) (ts : List α)
    (hov : overlap < targetSize) (hne : ts ≠ []) :
    deoverlap overlap (split targetSize overlap ts) = ts ∧
    ∀ c ∈ split targetSize overlap ts, c ≠ [] ∧ c.length ≤ targetSize := by
  obtain ⟨h1, h2, _⟩ :=
    splitAux_spec targetSize overlap hov ts.length ts (Nat.le_refl _) hne
  exact ⟨h1, h2⟩

theorem C8_chunking_witness :
    deoverlap 1 (split 2 1 ([0, 1, 2, 3, 4] : List Nat)) = [0, 1, 2, 3, 4] ∧
    ∀ c ∈ split 2 1 ([0, 1, 2, 3, 4] : List Nat), c ≠ [] ∧ c.length ≤ 2 :=
  C8_chunking 2 1 [0, 1, 2, 3, 4] (by decide) (by decide)

/-- C9: with an empty language-model credential the pipeline fails with the
`ValueError` message of `summarize.py` line 143 — for every possible model
behavior, so before any model call, snapshot write, or document can have any
effect on the outcome. -/
theorem C9_missing_credential_fatal (O : Oracles) (numChunks : Nat)
    (outputDir : String) :
    generate_summary_pipeline "" O numChunks outputDir =
      .error "NVIDIA_API_KEY not found in environment." := rfl

end LectureSummarization
